import Mathlib

/-!
Shallow embedding of the console log-line formatter of
`src/src/features/console.rs` (functions `parse_field_value`,
`stringify_log_obj`, `parse_line`).

Strings are modelled as `List Char`.  A runtime value
(`QuickJsValueAdapter`) is modelled by the `Value` structure: its JS type
tag, the result of `functions::call_to_string` (`display`, `none` models a
failed coercion, every call site uses `unwrap_or(String::new())`), and the
composite result of `json::stringify` followed by `primitives::to_string`
(`structured`; `Except.error e` models a failure whose rendered error
message is `e`, matching `format!("Error: {e}")` at the call site that
prints it).  The realm id pushed by `QuickJsRealmAdapter::with_context`
is passed as an explicit argument.
-/

/-- The JS type tags distinguished by the formatter
(`JsValueType` in the source; the formatter only branches on
Object / Function / Array / String versus the rest). -/
inductive JsValueType where
  | object | function | array | string | number | boolean | other
deriving DecidableEq, Repr

/-- Model of a `QuickJsValueAdapter` argument as the formatter observes it. -/
structure Value where
  type : JsValueType
  display : Option (List Char)
  structured : Except (List Char) (List Char)

/-- One decimal digit of `usize::from_str`. -/
def digitVal? (c : Char) : Option Nat :=
  if c.isDigit then some (c.toNat - 48) else none

/-- Accumulating digit run of `usize::from_str`. -/
def digitsToNatAux : Nat → List Char → Option Nat
  | acc, [] => some acc
  | acc, c :: cs =>
    match digitVal? c with
    | some d => digitsToNatAux (acc * 10 + d) cs
    | none => none

/-- Nonempty all-digit run parsed as a natural number. -/
def digitsToNat? : List Char → Option Nat
  | [] => none
  | s => digitsToNatAux 0 s

/-- Model of Rust `usize::from_str`: an optional leading `'+'`, then a
nonempty digit run; the value must fit in a 64-bit `usize`. -/
def usize_from_str (s : List Char) : Option Nat :=
  let t := match s with
    | '+' :: r => r
    | _ => s
  match digitsToNat? t with
  | some n => if n < 2 ^ 64 then some n else none
  | none => none

/-- `parse_field_value` without its leading `%.0f` special case
(the body from the `ends_with('d')` test down to the final
`call_to_string(ctx, value).unwrap_or(String::new())`).
`field.findIdx? (· = '.')` models `field.find('.')`,
`List.take i` models truncation via `split_off(i)`,
`List.dropLast` models `split_off(len - 1)` on the precision run,
and the two `while` loops are rendered by their exit conditions
(prepend/append `'0'` until the length bound holds). -/
def parse_field_value_core (field : List Char) (v : Value) : List Char :=
  if field.getLast? = some 'd' ∨ field.getLast? = some 'i' then
    -- let mut i_val = call_to_string(..).unwrap_or(String::new());
    -- remove chars behind .
    let i_val : List Char :=
      match (v.display.getD []).findIdx? (· = '.') with
      | some i => (v.display.getD []).take i
      | none => v.display.getD []
    match field.findIdx? (· = '.') with
    | some dot_in_field_idx =>
      let num_decimals_str := (field.drop (dot_in_field_idx + 1)).dropLast
      if num_decimals_str ≠ [] then
        match usize_from_str num_decimals_str with
        | some ct =>
          -- while i_val.len() < ct { i_val = format!("0{i_val}") }
          List.replicate (ct - i_val.length) '0' ++ i_val
        | none => i_val
      else i_val
    | none => i_val
  else if field.getLast? = some 'f' then
    let f_val : List Char := v.display.getD []
    match field.findIdx? (· = '.') with
    | some dot_in_field_idx =>
      let num_decimals_str := (field.drop (dot_in_field_idx + 1)).dropLast
      if num_decimals_str ≠ [] then
        match usize_from_str num_decimals_str with
        | some ct =>
          if ct > 0 then
            let f_val := if f_val.contains '.' then f_val else f_val ++ ['.']
            let dot_idx := (f_val.findIdx? (· = '.')).getD 0
            -- while f_val.len() - dot_idx <= ct { f_val.push('0') }
            let f_val :=
              if f_val.length ≤ dot_idx + ct then
                f_val ++ List.replicate (dot_idx + ct + 1 - f_val.length) '0'
              else f_val
            -- if f_val.len() - dot_idx > ct { f_val.split_off(dot_idx + ct + 1) }
            if dot_idx + ct < f_val.length then f_val.take (dot_idx + ct + 1)
            else f_val
          else f_val
        | none => f_val
      else f_val
    | none =>
      -- the `else if field.ends_with('o') || field.ends_with('O')` arm:
      -- reachable only when the field ends with 'f' AND has no '.',
      -- so its o/O test can never succeed (dead in the source).
      if field.getLast? = some 'o' ∨ field.getLast? = some 'O' then
        match v.structured with
        | .ok json => json
        | .error _ => []
      else v.display.getD []
  else v.display.getD []

/-- `parse_field_value`: the `%.0f` special case recurses once with
`"%i"` (which is not `"%.0f"`, hence reduces to the core body). -/
def parse_field_value (field : List Char) (v : Value) : List Char :=
  if field = "%.0f".toList then parse_field_value_core "%i".toList v
  else parse_field_value_core field v

/-- `stringify_log_obj`: structured serialization for aggregate values;
either failure point renders as `"Error: {e}"`. -/
def stringify_log_obj (v : Value) : List Char :=
  match v.structured with
  | .ok r => r
  | .error e => "Error: ".toList ++ e

/-- The per-argument default rendering used both for `args[0]`
(`message`) and for the leftover-argument loop of `parse_line`:
aggregates are serialized, everything else is display-coerced. -/
def default_render (v : Value) : List Char :=
  match v.type with
  | JsValueType.object => stringify_log_obj v
  | JsValueType.function => stringify_log_obj v
  | JsValueType.array => stringify_log_obj v
  | _ => v.display.getD []

/-- Is the scanner's terminal test true for this character?
(`chr.eq(&'s') || chr.eq(&'d') || chr.eq(&'f') || chr.eq(&'o') || chr.eq(&'i')`
in the source - note the absence of `'O'`.) -/
def termChar (c : Char) : Bool :=
  c = 's' || c = 'd' || c = 'f' || c = 'o' || c = 'i'

/-- The character loop of `parse_line` over the template `message`.
State: accumulated field code, the in-field flag, and the still
unconsumed substitution arguments (`args[x..]`).  Returns the text the
loop appends to `output` together with the number of arguments consumed
(`filled - 1`).  Note that `'%'` only sets the flag: it is never pushed
onto the field code. -/
def scanMsg : List Char → List Char → Bool → List Value → List Char × Nat
  | [], _, _, _ => ([], 0)
  | c :: cs, field_code, true, pending =>
    let fc := field_code ++ [c]
    if termChar c then
      match pending with
      | [] => scanMsg cs [] false []
      | a :: tl =>
        let r := scanMsg cs [] false tl
        (parse_field_value fc a ++ r.1, r.2 + 1)
    else scanMsg cs fc true pending
  | c :: cs, field_code, false, pending =>
    if c = '%' then scanMsg cs field_code true pending
    else
      let r := scanMsg cs field_code false pending
      (c :: r.1, r.2)

/-- `parse_line`: prefix, optional template scan of `args[0]`, then the
leftover-argument loop (`args.iter().skip(filled)`, i.e. the unconsumed
suffix of `args[1..]`), each contributing a space plus its default
rendering. -/
def parse_line (realmId : List Char) (args : List Value) : List Char :=
  let output := "JS_REALM:[".toList ++ realmId ++ "]: ".toList
  match args with
  | [] => output
  | a0 :: rest =>
    let message := default_render a0
    let scanned :=
      if a0.type = JsValueType.string then scanMsg message [] false rest
      else (message, 0)
    output ++ scanned.1 ++
      ((rest.drop scanned.2).map (fun a => ' ' :: default_render a)).flatten

-- sample concrete values used by counterexamples and witnesses

/-- A plainly displayable (non-aggregate) value with the given display text. -/
def dispVal (s : List Char) : Value :=
  ⟨JsValueType.number, some s, Except.error []⟩

/-- A String-typed value (a template candidate) with the given text. -/
def strVal (s : List Char) : Value :=
  ⟨JsValueType.string, some s, Except.error []⟩

/-- An Object-typed value whose display text and structured (JSON) text
differ, so the two rendering paths can be told apart. -/
def objVal : Value :=
  ⟨JsValueType.object, some "[object Object]".toList, Except.ok "serialized".toList⟩

/-- An Object-typed value whose structured serialization fails with
message `boom`. -/
def errVal : Value :=
  ⟨JsValueType.object, some "disp".toList, Except.error "boom".toList⟩

example : parse_field_value ['.', '2', 'f'] (dispVal "1.1".toList) = "1.10".toList := by decide
example : parse_field_value ['.', '2', 'f'] (dispVal "3".toList) = "3.00".toList := by decide
example : parse_field_value ['.', '2', 'f'] (dispVal "1.567".toList) = "1.56".toList := by decide
example : parse_field_value ['i'] (dispVal "3.7".toList) = "3".toList := by decide
example : parse_field_value ['.', '3', 'i'] (dispVal "3".toList) = "003".toList := by decide
example : parse_line "r".toList [strVal "one %s".toList, dispVal "two".toList,
    dispVal "3".toList] = "JS_REALM:[r]: one two 3".toList := by decide

/-- The literal characters the scanner emits when no substitution
arguments remain: in directive mode every character up to and including
the terminal letter is dropped, outside directive mode a `'%'` starts a
directive and every other character is emitted verbatim.  This is the
specialization of the scanner loop to an exhausted argument cursor. -/
def scanLiterals : List Char → Bool → List Char
  | [], _ => []
  | c :: cs, true => if termChar c then scanLiterals cs false else scanLiterals cs true
  | c :: cs, false => if c = '%' then scanLiterals cs true else c :: scanLiterals cs false

lemma scanMsg_no_pending (msg : List Char) :
    ∀ (fc : List Char) (b : Bool), scanMsg msg fc b [] = (scanLiterals msg b, 0) := by
  induction msg with
  | nil => intro fc b; cases b <;> rfl
  | cons c cs ih =>
    intro fc b
    cases b
    · by_cases h : c = '%'
      · simp only [scanMsg, scanLiterals, if_pos h, ih]
      · simp only [scanMsg, scanLiterals, if_neg h, ih]
    · by_cases h : termChar c
      · simp only [scanMsg, scanLiterals, if_pos h, ih]
      · simp only [scanMsg, scanLiterals, if_neg h, ih]

/-- C2 (amended): once the substitution arguments are exhausted, the
scanner consumes no further argument and a completed `%` directive
contributes nothing to the output (its characters, the `%` and the field
code included, are dropped); only characters seen outside directive mode
are emitted, verbatim.  Scanning never fails. -/
theorem exhausted_directives_are_dropped (msg fc : List Char) (b : Bool) :
    scanMsg msg fc b [] = (scanLiterals msg b, 0) :=
  scanMsg_no_pending msg fc b

/-- C2 (counterexample): with the template `"a%sb"` and no substitution
arguments left, the output is `"...: ab"`: the `%s` directive is dropped,
not emitted verbatim as the claim states. -/
theorem exhausted_directive_not_verbatim :
    parse_line "r".toList [strVal "a%sb".toList] = "JS_REALM:[r]: ab".toList ∧
    "JS_REALM:[r]: ab".toList ≠ "JS_REALM:[r]: a%sb".toList :=
  ⟨by decide, by decide⟩

/-- C1 (code bug): the `o`/`O` serialization arm of `parse_field_value`
is unreachable - it is the `else` of the `field.find('.')` test inside
the `field.ends_with('f')` branch, and a field ending in `'f'` never ends
in `'o'` or `'O'` - so a `%o` directive renders the plain display string,
not the structured JSON string, even for an Object-category value. -/
theorem o_directive_ignores_structured :
    parse_line "r".toList [strVal "%o".toList, objVal] =
      "JS_REALM:[r]: [object Object]".toList ∧
    objVal.structured = Except.ok "serialized".toList ∧
    parse_field_value ['o'] objVal ≠ "serialized".toList :=
  ⟨by decide, rfl, by decide⟩

/-- C3 (code bug): the scanner's terminal test checks only
`s, d, f, o, i` - uppercase `'O'` is not terminal - so a `%O` directive
never completes: its characters are swallowed into the field code and the
candidate argument is left to the leftover-argument loop instead of being
substituted. -/
theorem uppercase_O_does_not_terminate :
    termChar 'O' = false ∧
    parse_line "r".toList [strVal "x%Oy".toList, dispVal "V".toList] =
      "JS_REALM:[r]: x V".toList :=
  ⟨rfl, by decide⟩

/-- C4 (code bug): the scanner never pushes the triggering `'%'` onto the
field code, so a scanned `%.0f` directive reaches `parse_field_value` as
`".0f"`, misses the `field == "%.0f"` special case (which would degrade
to `%i`), and returns the display string unmodified: `"1.9"` renders as
`"1.9"`, not `"1"`.  The special case does fire - and does behave as
`%i` - when the field carries the leading `'%'`. -/
theorem scanned_dot0f_misses_special_case :
    parse_line "r".toList [strVal "%.0f".toList, dispVal "1.9".toList] =
      "JS_REALM:[r]: 1.9".toList ∧
    parse_field_value "%.0f".toList (dispVal "1.9".toList) = "1".toList ∧
    parse_field_value "%i".toList (dispVal "1.9".toList) = "1".toList ∧
    "JS_REALM:[r]: 1.9".toList ≠ "JS_REALM:[r]: 1".toList :=
  ⟨by decide, by decide, by decide, by decide⟩

/-- C5 (counterexample): a failed structured serialization of an
aggregate argument contributes `"Error: <message>"` to the output, not
the empty string the claim promises. -/
theorem failed_serialization_renders_error_text :
    parse_line "r".toList [errVal] = "JS_REALM:[r]: Error: boom".toList ∧
    "JS_REALM:[r]: Error: boom".toList ≠ "JS_REALM:[r]: ".toList :=
  ⟨by decide, by decide⟩

/-- C9 (counterexample): the output of `parse_line` on an empty argument
list is exactly `"JS_REALM:[<id>]: "`, not `"CONTEXT:[<id>]: "` as the
claim states. -/
theorem empty_args_yield_js_realm_tag :
    parse_line "ctx1".toList [] = "JS_REALM:[ctx1]: ".toList ∧
    "JS_REALM:[ctx1]: ".toList ≠ "CONTEXT:[ctx1]: ".toList :=
  ⟨rfl, by decide⟩

lemma parse_field_value_core_display_congr (field : List Char) (v w : Value)
    (hd : v.display.getD [] = w.display.getD []) (hs : v.structured = w.structured) :
    parse_field_value_core field v = parse_field_value_core field w := by
  simp only [parse_field_value_core, hd, hs]

/-- A non-aggregate value whose display coercion fails. -/
def noDispVal : Value := ⟨JsValueType.number, none, Except.error []⟩

/-- C5 (amended): a failed display coercion behaves exactly as an empty
display string inside `parse_field_value` (so it contributes the empty
string at the point of failure, possibly then padded by the directive's
precision rules) and renders as the empty string on the default
non-aggregate path, while a failed structured serialization renders as
`"Error: <message>"`; no failure propagates - every rendering function
is total. -/
theorem coercion_failures_degrade_locally :
    (∀ (v : Value) (e : List Char), v.structured = Except.error e →
      stringify_log_obj v = "Error: ".toList ++ e) ∧
    (∀ (field : List Char) (v : Value), v.display = none →
      parse_field_value field v =
        parse_field_value field ⟨v.type, some [], v.structured⟩) ∧
    (∀ v : Value, v.display = none →
      v.type ≠ JsValueType.object → v.type ≠ JsValueType.array →
      v.type ≠ JsValueType.function → default_render v = []) := by
  refine ⟨?_, ?_, ?_⟩
  · intro v e h
    simp [stringify_log_obj, h]
  · intro field v h
    have hd : v.display.getD [] =
        (Value.mk v.type (some []) v.structured).display.getD [] := by
      rw [h]; rfl
    by_cases hf : field = "%.0f".toList
    · simp only [parse_field_value, if_pos hf]
      exact parse_field_value_core_display_congr _ _ _ hd rfl
    · simp only [parse_field_value, if_neg hf]
      exact parse_field_value_core_display_congr _ _ _ hd rfl
  · intro v h h1 h2 h3
    rcases v with ⟨t, d, st⟩
    cases h
    cases t <;> simp_all [default_render]

/-- Witness for C5 (amended) at concrete failing values. -/
theorem coercion_failures_degrade_locally_witness :
    stringify_log_obj errVal = "Error: ".toList ++ "boom".toList ∧
    parse_field_value ['s'] noDispVal =
      parse_field_value ['s'] ⟨noDispVal.type, some [], noDispVal.structured⟩ ∧
    default_render noDispVal = [] :=
  ⟨coercion_failures_degrade_locally.1 errVal "boom".toList rfl,
   coercion_failures_degrade_locally.2.1 ['s'] noDispVal rfl,
   coercion_failures_degrade_locally.2.2 noDispVal rfl
     (by decide) (by decide) (by decide)⟩

/-- C9 (amended): every output of `parse_line` begins with the tag
`"JS_REALM:[<id>]: "` built from the caller-supplied realm id, and on an
empty argument list the output is exactly this tag and nothing else. -/
theorem output_begins_with_realm_tag (realmId : List Char) (args : List Value) :
    (parse_line realmId args).take
        ("JS_REALM:[".toList ++ realmId ++ "]: ".toList).length
      = "JS_REALM:[".toList ++ realmId ++ "]: ".toList ∧
    parse_line realmId [] = "JS_REALM:[".toList ++ realmId ++ "]: ".toList := by
  constructor
  · cases args with
    | nil =>
      exact List.take_length _
    | cons a0 rest =>
      simp only [parse_line]
      rw [List.append_assoc, List.append_assoc]
      exact List.take_left _ _
  · rfl

/-- C8: in the output of `parse_line`, every argument not consumed as a
template substitution (index at least `filled`) contributes exactly one
space followed by its default rendering, in the arguments' original
order; the default rendering serializes Object / Array / Function values
and display-coerces all others. -/
theorem leftover_args_space_separated (realmId : List Char) (a0 : Value)
    (rest : List Value) :
    parse_line realmId (a0 :: rest) =
      ("JS_REALM:[".toList ++ realmId ++ "]: ".toList) ++
      (if a0.type = JsValueType.string
        then (scanMsg (default_render a0) [] false rest).1
        else default_render a0) ++
      ((rest.drop (if a0.type = JsValueType.string
          then (scanMsg (default_render a0) [] false rest).2 else 0)).map
        (fun a => ' ' :: default_render a)).flatten ∧
    (∀ v : Value, default_render v =
      match v.type with
      | JsValueType.object => stringify_log_obj v
      | JsValueType.function => stringify_log_obj v
      | JsValueType.array => stringify_log_obj v
      | _ => v.display.getD []) := by
  constructor
  · by_cases h : a0.type = JsValueType.string <;> simp [parse_line, h]
  · intro v; rfl

/-- C10: a field code ending in `'f'` that carries no `'.'` (hence no
precision) renders the value's plain display string unmodified, exactly
like kind `'s'`. -/
theorem float_without_precision_is_plain (field : List Char) (v : Value)
    (hf : field.getLast? = some 'f') (hnd : field.findIdx? (· = '.') = none) :
    parse_field_value field v = v.display.getD [] ∧
    parse_field_value field v = parse_field_value ['s'] v := by
  have hne : field ≠ "%.0f".toList := by
    intro h
    rw [h] at hnd
    exact absurd hnd (by decide)
  have hcore : parse_field_value_core field v = v.display.getD [] := by
    unfold parse_field_value_core
    simp [hf, hnd]
  constructor
  · rw [parse_field_value, if_neg hne]
    exact hcore
  · rw [parse_field_value, if_neg hne, hcore]
    rfl

/-- Witness for C10 with the bare field code `"f"`. -/
theorem float_without_precision_is_plain_witness :
    parse_field_value ['f'] (dispVal "1.9".toList) =
      (dispVal "1.9".toList).display.getD [] ∧
    parse_field_value ['f'] (dispVal "1.9".toList) =
      parse_field_value ['s'] (dispVal "1.9".toList) :=
  float_without_precision_is_plain ['f'] (dispVal "1.9".toList)
    (by decide) (by decide)

/-- Truncation of a display string at its first `'.'` (the dot and
everything after it dropped), as the claims describe the integer kinds. -/
def truncAtDot (s : List Char) : List Char :=
  match s.findIdx? (· = '.') with
  | some i => s.take i
  | none => s

lemma dot_cons_ne_special (l : List Char) : ('.' :: l) ≠ "%.0f".toList := by
  intro h
  have h0 : ('.' :: l).head? = some '.' := rfl
  rw [h] at h0
  exact absurd h0 (by decide)

lemma usize_from_str_ne_nil {ds : List Char} {p : Nat}
    (h : usize_from_str ds = some p) : ds ≠ [] := by
  intro hnil
  rw [hnil, show usize_from_str [] = none from rfl] at h
  exact Option.noConfusion h

lemma findIdx?_dot_cons (l : List Char) : ('.' :: l).findIdx? (· = '.') = some 0 := by
  rw [List.findIdx?_cons]
  simp

lemma parse_field_value_core_int_prec (ds : List Char) (c : Char) (v : Value) (p : Nat)
    (hc : c = 'd' ∨ c = 'i') (hds : usize_from_str ds = some p) :
    parse_field_value_core ('.' :: (ds ++ [c])) v =
      List.replicate (p - (truncAtDot (v.display.getD [])).length) '0' ++
        truncAtDot (v.display.getD []) := by
  have hne : ds ≠ [] := usize_from_str_ne_nil hds
  have hlast : ('.' :: (ds ++ [c])).getLast? = some c := List.getLast?_concat ('.' :: ds)
  have hfi : ('.' :: (ds ++ [c])).findIdx? (· = '.') = some 0 := findIdx?_dot_cons _
  have hcond : some c = some 'd' ∨ some c = some 'i' := by
    rcases hc with rfl | rfl
    · exact Or.inl rfl
    · exact Or.inr rfl
  unfold parse_field_value_core
  simp only [hlast]
  rw [if_pos hcond]
  simp only [hfi, List.drop_succ_cons, List.drop_zero, List.dropLast_concat, hds]
  rw [if_pos hne]
  rfl

/-- C7: rendering with kind `d` or `i` truncates the display string at
the first `'.'` (pure truncation, no rounding, the dot and everything
after it dropped); with a precision `p` the truncated string is
left-padded with `'0'` until its length is at least `p`. -/
theorem integer_kind_truncates_and_pads (ds s : List Char) (p : Nat) (v : Value)
    (hds : usize_from_str ds = some p) (hd : v.display = some s) :
    parse_field_value ['i'] v = truncAtDot s ∧
    parse_field_value ['d'] v = truncAtDot s ∧
    parse_field_value ('.' :: (ds ++ ['i'])) v =
      List.replicate (p - (truncAtDot s).length) '0' ++ truncAtDot s ∧
    parse_field_value ('.' :: (ds ++ ['d'])) v =
      List.replicate (p - (truncAtDot s).length) '0' ++ truncAtDot s ∧
    p ≤ (List.replicate (p - (truncAtDot s).length) '0' ++ truncAtDot s).length := by
  have hgd : v.display.getD [] = s := by rw [hd]; rfl
  refine ⟨?_, ?_, ?_, ?_, ?_⟩
  · rw [show parse_field_value ['i'] v = truncAtDot (v.display.getD []) from rfl, hgd]
  · rw [show parse_field_value ['d'] v = truncAtDot (v.display.getD []) from rfl, hgd]
  · rw [parse_field_value, if_neg (dot_cons_ne_special _),
        parse_field_value_core_int_prec ds 'i' v p (Or.inr rfl) hds, hgd]
  · rw [parse_field_value, if_neg (dot_cons_ne_special _),
        parse_field_value_core_int_prec ds 'd' v p (Or.inl rfl) hds, hgd]
  · simp only [List.length_append, List.length_replicate]
    omega

/-- Witness for C7: display `"3.7"` with no precision renders `"3"`;
display `"3"` with precision 3 renders `"003"`. -/
theorem integer_kind_truncates_and_pads_witness :
    (parse_field_value ['i'] (dispVal "3.7".toList) = truncAtDot "3.7".toList ∧
     parse_field_value ['d'] (dispVal "3.7".toList) = truncAtDot "3.7".toList ∧
     parse_field_value ('.' :: (['3'] ++ ['i'])) (dispVal "3.7".toList) =
       List.replicate (3 - (truncAtDot "3.7".toList).length) '0' ++
         truncAtDot "3.7".toList ∧
     parse_field_value ('.' :: (['3'] ++ ['d'])) (dispVal "3.7".toList) =
       List.replicate (3 - (truncAtDot "3.7".toList).length) '0' ++
         truncAtDot "3.7".toList ∧
     3 ≤ (List.replicate (3 - (truncAtDot "3.7".toList).length) '0' ++
           truncAtDot "3.7".toList).length) ∧
    truncAtDot "3.7".toList = "3".toList ∧
    parse_field_value ('.' :: (['3'] ++ ['i'])) (dispVal "3".toList) = "003".toList :=
  ⟨integer_kind_truncates_and_pads ['3'] "3.7".toList 3 (dispVal "3.7".toList)
      (by decide) rfl,
   by decide, by decide⟩

lemma parse_field_value_core_float_prec (ds : List Char) (v : Value) (p : Nat)
    (hds : usize_from_str ds = some p) (hp : 0 < p) :
    parse_field_value_core ('.' :: (ds ++ ['f'])) v =
      (let f1 := if (v.display.getD []).contains '.' then v.display.getD []
                 else v.display.getD [] ++ ['.']
       let d := (f1.findIdx? (· = '.')).getD 0
       let f2 := if f1.length ≤ d + p
                 then f1 ++ List.replicate (d + p + 1 - f1.length) '0' else f1
       if d + p < f2.length then f2.take (d + p + 1) else f2) := by
  have hne : ds ≠ [] := usize_from_str_ne_nil hds
  have hlast : ('.' :: (ds ++ ['f'])).getLast? = some 'f' := List.getLast?_concat ('.' :: ds)
  have hfi : ('.' :: (ds ++ ['f'])).findIdx? (· = '.') = some 0 := findIdx?_dot_cons _
  unfold parse_field_value_core
  simp only [hlast]
  rw [if_neg (by simp)]
  rw [if_pos trivial]
  simp only [hfi, List.drop_succ_cons, List.drop_zero, List.dropLast_concat, hds]
  rw [if_pos hne]
  rw [if_pos hp]

lemma pad_trunc_take (s' : List Char) (d p : Nat) (hdlt : d < s'.length) :
    (let f2 := if s'.length ≤ d + p
               then s' ++ List.replicate (d + p + 1 - s'.length) '0' else s'
     if d + p < f2.length then f2.take (d + p + 1) else f2) =
    s'.take (d + 1 + p) ++ List.replicate (p - (s'.length - (d + 1))) '0' := by
  by_cases h : s'.length ≤ d + p
  · simp only [if_pos h]
    have hlen : (s' ++ List.replicate (d + p + 1 - s'.length) '0').length = d + p + 1 := by
      simp only [List.length_append, List.length_replicate]
      omega
    rw [if_pos (by rw [hlen]; omega)]
    rw [List.take_of_length_le (le_of_eq hlen)]
    rw [List.take_of_length_le (by omega : s'.length ≤ d + 1 + p)]
    have hc : d + p + 1 - s'.length = p - (s'.length - (d + 1)) := by omega
    rw [hc]
  · simp only [if_neg h]
    rw [if_pos (by omega)]
    have h0 : p - (s'.length - (d + 1)) = 0 := by omega
    rw [h0, List.replicate_zero, List.append_nil]
    have hc : d + p + 1 = d + 1 + p := by omega
    rw [hc]

/-- C6: rendering with kind `f` and precision `p ≥ 1` first ensures the
display string has a decimal point (appending one if absent), then pads
the fractional part with trailing `'0'` or truncates it (no rounding)
so that exactly `p` characters follow the first dot: the result is the
first `d + 1 + p` characters of the dotted string (where `d` is the
index of its first dot) extended by however many `'0'`s are missing. -/
theorem float_precision_pads_and_truncates (ds s : List Char) (p : Nat) (v : Value)
    (hds : usize_from_str ds = some p) (hp : 1 ≤ p) (hd : v.display = some s) :
    parse_field_value ('.' :: (ds ++ ['f'])) v =
      (let s' := if s.contains '.' then s else s ++ ['.']
       let d := (s'.findIdx? (· = '.')).getD 0
       s'.take (d + 1 + p) ++ List.replicate (p - (s'.length - (d + 1))) '0') := by
  rw [parse_field_value, if_neg (dot_cons_ne_special _)]
  rw [parse_field_value_core_float_prec ds v p hds (by omega)]
  have hgd : v.display.getD [] = s := by rw [hd]; rfl
  simp only [hgd]
  have hmem : '.' ∈ (if s.contains '.' then s else s ++ ['.']) := by
    by_cases hc : s.contains '.'
    · rw [if_pos hc]
      simpa using hc
    · rw [if_neg hc]
      simp
  have hsome : (((if s.contains '.' then s else s ++ ['.']).findIdx? (· = '.'))).isSome := by
    rw [List.findIdx?_isSome, List.any_eq_true]
    exact ⟨'.', hmem, by decide⟩
  obtain ⟨i, hi⟩ := Option.isSome_iff_exists.mp hsome
  have hdlt : ((if s.contains '.' then s else s ++ ['.']).findIdx? (· = '.')).getD 0
      < (if s.contains '.' then s else s ++ ['.']).length := by
    rw [hi]
    exact (List.findIdx?_eq_some_iff_findIdx_eq.mp hi).1
  exact pad_trunc_take _ _ p hdlt

/-- Witness for C6: `"1.1"` with precision 2 gives `"1.10"`, `"3"` gives
`"3.00"`, `"1.567"` gives `"1.56"` (truncation, not rounding). -/
theorem float_precision_pads_and_truncates_witness :
    usize_from_str ['2'] = some 2 ∧
    parse_field_value ('.' :: (['2'] ++ ['f'])) (dispVal "1.1".toList) =
      (let s' := if "1.1".toList.contains '.' then "1.1".toList
                 else "1.1".toList ++ ['.']
       let d := (s'.findIdx? (· = '.')).getD 0
       s'.take (d + 1 + 2) ++ List.replicate (2 - (s'.length - (d + 1))) '0') ∧
    parse_field_value ('.' :: (['2'] ++ ['f'])) (dispVal "1.1".toList) = "1.10".toList ∧
    parse_field_value ('.' :: (['2'] ++ ['f'])) (dispVal "3".toList) = "3.00".toList ∧
    parse_field_value ('.' :: (['2'] ++ ['f'])) (dispVal "1.567".toList) = "1.56".toList :=
  ⟨by decide,
   float_precision_pads_and_truncates ['2'] "1.1".toList 2 (dispVal "1.1".toList)
     (by decide) (by decide) rfl,
   by decide, by decide, by decide⟩
